import Mathlib

/-!
Verification of the lua-bundle bundling engine: a shallow embedding of
`src/bin/bundle/main.rs`.  Source text is modelled as
`List Char`; Rust's `str::lines` (split at `'\n'`, strip a `'\r'` that
precedes a terminator, drop a trailing empty segment) is modelled by
`rustLines`, and `str::split('\n')` by `splitNl`.  File paths are modelled
as strings over a Unix-like path syntax (components separated by `'/'`,
no trailing separator on file paths, no `.`/`..` components inside the
paths that the bundler manipulates); `Path::file_stem`, `Path::extension`
and `Path::set_file_name` are embedded with the Rust standard library's
documented semantics on such paths.
-/

namespace LuaBundle

/-- Source text: a list of characters (Rust `String` contents). -/
abbrev Str := List Char

/-- The characters of a Lean string literal, as text. -/
def str (s : String) : Str := s.data

/-- Text of `n` tab characters: the indentation produced by `"\t".repeat(n)`. -/
def tabs (n : Nat) : Str := List.replicate n '\t'

/-- Rust `s.split('\n')`: the pieces of `s` between newline characters.
Always returns a non-empty list; a trailing newline yields a final
empty piece. -/
def splitNl : Str → List Str
  | [] => [[]]
  | c :: cs =>
    if c = '\n' then [] :: splitNl cs
    else
      match splitNl cs with
      | [] => [[c]]
      | l :: ls => (c :: l) :: ls

/-- Strip one trailing `'\r'`, as Rust's `lines` does on a piece that was
terminated by `'\n'`. -/
def stripCR (l : Str) : Str :=
  if l.getLast? = some '\r' then l.dropLast else l

/-- Turn the `splitNl` pieces into the lines `str::lines` yields: every
terminated piece is `'\r'`-stripped; the final piece is unterminated and
kept verbatim, except that a final empty piece is dropped. -/
def rustLinesAux : List Str → List Str
  | [] => []
  | [l] => if l = [] then [] else [l]
  | l :: l' :: ls => stripCR l :: rustLinesAux (l' :: ls)

/-- Rust `str::lines`. -/
def rustLines (s : Str) : List Str := rustLinesAux (splitNl s)

/-- Rust `Vec::join("\n")`: interleave a newline between consecutive lines. -/
def joinNl : List Str → Str
  | [] => []
  | [l] => l
  | l :: l' :: ls => l ++ '\n' :: joinNl (l' :: ls)

/-- Embedding of `indent_block` from the source: prefix every line of `block` with
`level` tab characters and re-join with newlines. -/
def indent_block (block : Str) (level : Nat) : Str :=
  joinNl ((rustLines block).map (fun line => tabs level ++ line))

/-- The statement `inject_require` prepends (its first line). -/
def require_header (require : Str) : Str :=
  str "local " ++ require ++
    str ", functions, get_require = get_require(functions), nil, nil"

/-- Embedding of `inject_require` from the source: prepend the accessor-shadowing
statement, a blank line, then the module code. -/
def inject_require (code require : Str) : Str :=
  require_header require ++ '\n' :: '\n' :: code

/-- The header line of a wrapped module's factory entry,
`["<file>"] = function(functions)`. -/
def module_header (file : Str) : Str :=
  str "[\"" ++ file ++ str "\"] = function(functions)"

/-- Embedding of `insert_module` from the source: indent the require-injected code by
one unit, wrap it into a keyed factory entry, and indent the whole entry
by `level` units. -/
def insert_module (file code require : Str) (level : Nat) : Str :=
  let code2 := indent_block (inject_require code require) 1
  indent_block
    ('\n' :: (module_header file ++ '\n' :: (code2 ++ '\n' :: str "end,\n")))
    level

/-- Embedding of `insert_entry_point` from the source: the epilogue constructing a
runtime instance from the module table plus an empty module-state table
and invoking its `require` operation on the entry point's key. -/
def insert_entry_point (entry_point : Str) : Str :=
  str "\nfunctions.new(\x7b\n    files = files,\n    modules = \x7b\x7d,\n\x7d):require(\"" ++
    entry_point ++ str "\")"

/-! Path model: `std::path` on Unix-like file paths. -/

/-- The final path component: everything after the last `'/'`. -/
def lastComponent (p : Str) : Str :=
  (p.reverse.takeWhile (fun c => c ≠ '/')).reverse

/-- The leading directory part, including its trailing separator, so that
`dirPart p ++ lastComponent p = p`. -/
def dirPart (p : Str) : Str :=
  (p.reverse.dropWhile (fun c => c ≠ '/')).reverse

/-- Rust `Path::file_name`: the final component, unless it is empty or one of
the special components `.` and `..`. -/
def file_name (p : Str) : Option Str :=
  if lastComponent p = [] ∨ lastComponent p = str "." ∨ lastComponent p = str ".."
  then none else some (lastComponent p)

/-- The substring of `l` after its last `'.'` (meaningful when `'.' ∈ l`). -/
def afterLastDot (l : Str) : Str :=
  (l.reverse.takeWhile (fun c => c ≠ '.')).reverse

/-- The substring of `l` before its last `'.'` (meaningful when `'.' ∈ l`). -/
def beforeLastDot (l : Str) : Str :=
  ((l.reverse.dropWhile (fun c => c ≠ '.')).drop 1).reverse

/-- The stem of a file name: the whole name when it has no dot past its
first character (so a leading dot is not an extension marker), otherwise
the portion before the last dot. -/
def stemOfName : Str → Str
  | [] => []
  | c :: cs => if '.' ∈ cs then c :: beforeLastDot cs else c :: cs

/-- Rust `Path::file_stem`. -/
def file_stem (p : Str) : Option Str :=
  (file_name p).map stemOfName

/-- Rust `Path::extension`: the portion of the file name after its last dot,
provided that dot is not the name's first character. -/
def extension (p : Str) : Option Str :=
  match file_name p with
  | none => none
  | some [] => none
  | some (_ :: cs) => if '.' ∈ cs then some (afterLastDot cs) else none

/-- Rust `Path::set_file_name`: replace the final component. -/
def set_file_name (p stem : Str) : Str :=
  dirPart p ++ stem

/-- Embedding of `path_without_extension` from the source: replace the file name by its
stem when a stem exists, otherwise leave the path unchanged. -/
def path_without_extension (p : Str) : Str :=
  match file_stem p with
  | some stem => set_file_name p stem
  | none => p

/-- Rust `Path::join` of a directory and a (relative) child path. -/
def joinPath (base child : Str) : Str :=
  if base = [] then child
  else if base.getLast? = some '/' then base ++ child
  else base ++ '/' :: child

/-! Projects, the build manifest, and the TOML value model. -/

/-- The `LuaVersion` enum. -/
inductive LuaVersion where
  | Default
  | Lua51
  | Luau
  | Fennel
deriving DecidableEq

/-- Embedding of `From<&str> for LuaVersion`: unrecognized strings fall back to
`Default`. -/
def LuaVersion.fromStr (s : Str) : LuaVersion :=
  if s = str "Lua51" then .Lua51
  else if s = str "Luau" then .Luau
  else if s = str "Fennel" then .Fennel
  else .Default

/-- The `Project` struct. -/
structure Project where
  name : Str
  output : Str
  entry_point : Str
  files : List Str
  lua_version : LuaVersion
deriving DecidableEq

/-- The `BuildFile` struct. -/
structure BuildFile where
  projects : List Project
  require_function : Str
deriving DecidableEq

/-- The constant `DEFAULT_REQUIRE_FUNCTION`. -/
def DEFAULT_REQUIRE_FUNCTION : Str := str "require"

/-- The filesystem, modelled as the association list of existing regular
files and their UTF-8 contents.  Directories are not modelled: every path
the bundler reads or existence-checks is a plain file in this model. -/
abbrev FS := List (Str × Str)

/-- Embedding of `std::fs::read_to_string` as a lookup; `none` means the file does not
exist. -/
def fsRead (fs : FS) (p : Str) : Option Str :=
  (fs.find? (fun e => decide (e.1 = p))).map (fun e => e.2)

/-- Embedding of `Path::exists` / `std::fs::exists` over the file model. -/
def fsExists (fs : FS) (p : Str) : Bool :=
  (fsRead fs p).isSome

/-- A parsed TOML value (the manifest parser itself is an external
collaborator; its output document is consumed in this form).  `int`
stands for any non-string, non-array, non-table value. -/
inductive Toml where
  | s (v : Str)
  | int (v : Int)
  | arr (vs : List Toml)
  | table (kvs : List (Str × Toml))

/-- Embedding of `Value::as_str().unwrap()`: panics (models as `Except.error`) on a
non-string value. -/
def Toml.as_str : Toml → Except Unit Str
  | .s v => .ok v
  | _ => .error ()

/-- Embedding of `Value::as_array().unwrap()`. -/
def Toml.as_array : Toml → Except Unit (List Toml)
  | .arr vs => .ok vs
  | _ => .error ()

/-- Embedding of `Value::as_table().unwrap()`. -/
def Toml.as_table : Toml → Except Unit (List (Str × Toml))
  | .table kvs => .ok kvs
  | _ => .error ()

/-- Embedding of `Table::get`. -/
def tget (t : List (Str × Toml)) (k : Str) : Option Toml :=
  (t.find? (fun e => decide (e.1 = k))).map (fun e => e.2)

/-! The external fennel compiler subprocess. -/

/-- The `std::process::Output` of the spawned compiler: its exit status and
the raw bytes it wrote to its piped standard output. -/
structure ProcessOutput where
  status : Int
  stdout : List Nat

/-- Is `b` a UTF-8 continuation byte (`0x80..=0xBF`)? -/
def isCont (b : Nat) : Bool := 0x80 ≤ b && b ≤ 0xBF

/-- Valid second byte of a three-byte UTF-8 sequence with lead `b0`. -/
def utf8Second3 (b0 b1 : Nat) : Bool :=
  if b0 = 0xE0 then 0xA0 ≤ b1 && b1 ≤ 0xBF
  else if b0 = 0xED then 0x80 ≤ b1 && b1 ≤ 0x9F
  else isCont b1

/-- Valid second byte of a four-byte UTF-8 sequence with lead `b0`. -/
def utf8Second4 (b0 b1 : Nat) : Bool :=
  if b0 = 0xF0 then 0x90 ≤ b1 && b1 ≤ 0xBF
  else if b0 = 0xF4 then 0x80 ≤ b1 && b1 ≤ 0x8F
  else isCont b1

/-- Lossy UTF-8 decoding of a byte stream into Unicode scalar values,
with `String::from_utf8_lossy`'s substitution of maximal subparts: each
maximal invalid prefix is replaced by one U+FFFD replacement character. -/
def utf8Lossy : List Nat → List Nat
  | [] => []
  | b0 :: rest =>
    if b0 < 0x80 then b0 :: utf8Lossy rest
    else if b0 < 0xC2 then 0xFFFD :: utf8Lossy rest
    else if b0 ≤ 0xDF then
      match rest with
      | [] => [0xFFFD]
      | b1 :: rest1 =>
        if isCont b1 then ((b0 - 0xC0) * 0x40 + (b1 - 0x80)) :: utf8Lossy rest1
        else 0xFFFD :: utf8Lossy (b1 :: rest1)
    else if b0 ≤ 0xEF then
      match rest with
      | [] => [0xFFFD]
      | b1 :: rest1 =>
        if utf8Second3 b0 b1 then
          match rest1 with
          | [] => [0xFFFD]
          | b2 :: rest2 =>
            if isCont b2 then
              ((b0 - 0xE0) * 0x1000 + (b1 - 0x80) * 0x40 + (b2 - 0x80)) ::
                utf8Lossy rest2
            else 0xFFFD :: utf8Lossy (b2 :: rest2)
        else 0xFFFD :: utf8Lossy (b1 :: rest1)
    else if b0 ≤ 0xF4 then
      match rest with
      | [] => [0xFFFD]
      | b1 :: rest1 =>
        if utf8Second4 b0 b1 then
          match rest1 with
          | [] => [0xFFFD]
          | b2 :: rest2 =>
            if isCont b2 then
              match rest2 with
              | [] => [0xFFFD]
              | b3 :: rest3 =>
                if isCont b3 then
                  ((b0 - 0xF0) * 0x40000 + (b1 - 0x80) * 0x1000 +
                      (b2 - 0x80) * 0x40 + (b3 - 0x80)) :: utf8Lossy rest3
                else 0xFFFD :: utf8Lossy (b3 :: rest3)
            else 0xFFFD :: utf8Lossy (b2 :: rest2)
        else 0xFFFD :: utf8Lossy (b1 :: rest1)
    else 0xFFFD :: utf8Lossy rest

/-- Embedding of `compile_fennel_to_lua`: the full standard output of the subprocess,
decoded with `String::from_utf8_lossy`; the exit status is never
inspected.  The subprocess itself (spawn, stdin write, wait) is the
external black box; its observable result is the `ProcessOutput`. -/
def compile_fennel_to_lua (out : ProcessOutput) : Str :=
  (utf8Lossy out.stdout).map Char.ofNat

/-! Embedding of `Project::build`.

The embedded `lua.lua` runtime shim is an opaque text asset
that is not part of the bundling engine; it is passed in as the
`preamble` parameter.  The fennel subprocess is the function
`spawn : Str → ProcessOutput` from the text written to its stdin to its
observable output.  Panicking `unwrap`s are modelled by `Except.error ()`.
-/

/-- The per-file transform of `Project::build`: a `fnl` file's contents
are piped through the external compiler; any other extension passes the
contents through unchanged. -/
def transform_content (spawn : Str → ProcessOutput) (ext content : Str) : Str :=
  if ext = str "fnl" then compile_fennel_to_lua (spawn content) else content

/-- The loop body of `Project::build` over the file list: read each file
(panicking — `Except.error` — when it is unreadable), take its extension
(panicking when there is none), transform, wrap with `insert_module` at
level 1, and concatenate in order. -/
def buildBlocks (spawn : Str → ProcessOutput) (fs : FS) (require_method : Str) :
    List Str → Except Unit Str
  | [] => .ok []
  | file :: restFiles =>
    match fsRead fs file with
    | none => .error ()
    | some content =>
      match extension file with
      | none => .error ()
      | some ext =>
        match buildBlocks spawn fs require_method restFiles with
        | .error e => .error e
        | .ok restOut =>
          .ok (insert_module (path_without_extension file)
            (transform_content spawn ext content) require_method 1 ++ restOut)

/-- The per-file module body that ends up in the bundle: the file's
contents, piped through the compiler exactly when the extension is
`fnl`. -/
def transformed (spawn : Str → ProcessOutput) (fs : FS) (file : Str) : Str :=
  transform_content spawn ((extension file).getD []) ((fsRead fs file).getD [])

/-- Embedding of `Project::build`: preamble, module-table opening, the wrapped module
blocks, module-table close, entry-point epilogue; the result is written to
`output/name`.  Returns the `(path, contents)` pair written, or an error
when the build panics. -/
def Project.build (preamble : Str) (spawn : Str → ProcessOutput) (fs : FS)
    (p : Project) (require_method : Str) : Except Unit (Str × Str) :=
  match buildBlocks spawn fs require_method p.files with
  | .error e => .error e
  | .ok blocks =>
    .ok (joinPath p.output p.name,
      preamble ++ str "\nlocal files = \x7b" ++ blocks ++
        str "\n\x7d\n" ++ insert_entry_point (path_without_extension p.entry_point))

/-! Manifest loading: `parse_project`, `BuildFile::from_workspace`, `main`. -/

/-- Embedding of `files_from_path` over the flat-file filesystem model: directories are
not modelled, so an existing path is a regular file and expands to itself,
and a missing path (`is_file` and `is_dir` both false) expands to nothing. -/
def files_from_path (fs : FS) (p : Str) : List Str :=
  if fsExists fs p then [p] else []

/-- The `files` loop of `parse_project`: unwrap each entry as a string
(panic on non-strings), and on the first non-existing path give up with
`none` (the project is skipped); otherwise collect the expansions in
order. -/
def collect_files (fs : FS) : List Toml → Except Unit (Option (List Str))
  | [] => .ok (some [])
  | v :: rest =>
    match v.as_str with
    | .error e => .error e
    | .ok entry =>
      if fsExists fs entry then
        match collect_files fs rest with
        | .error e => .error e
        | .ok (some files) => .ok (some (files_from_path fs entry ++ files))
        | .ok none => .ok none
      else .ok none

/-- Embedding of `parse_project`: resolve one raw project table.  The result pairs the
error messages printed to stderr with `none` (project skipped) or the
resolved project; `Except.error` is a panic on a wrongly-typed field. -/
def parse_project (fs : FS) (t : List (Str × Toml)) :
    Except Unit (List Str × Option Project) :=
  match (match tget t (str "name") with
         | some v => v.as_str
         | none => Except.ok (str "a")) with
  | .error e => .error e
  | .ok base =>
    match (match tget t (str "output") with
           | some v => v.as_str
           | none => Except.ok (str "build")) with
    | .error e => .error e
    | .ok output =>
      match tget t (str "entry_point") with
      | none =>
        .ok ([str "error: a project entry is missing a `entry_point` file"], none)
      | some v =>
        match v.as_str with
        | .error e => .error e
        | .ok entry_point =>
          if fsExists fs entry_point then
            match (match tget t (str "lua_version") with
                   | some v2 =>
                     match v2.as_str with
                     | .error e => Except.error e
                     | .ok s2 => Except.ok (LuaVersion.fromStr s2)
                   | none => Except.ok LuaVersion.Default) with
            | .error e => .error e
            | .ok lua_version =>
              match tget t (str "files") with
              | none =>
                .ok ([str "error: a project entry is missing a `files` list"], none)
              | some v3 =>
                match v3.as_array with
                | .error e => .error e
                | .ok array =>
                  match collect_files fs array with
                  | .error e => .error e
                  | .ok (some files) =>
                    .ok ([], some
                      ⟨base ++ str ".lua", output, entry_point, files, lua_version⟩)
                  | .ok none =>
                    .ok ([str "error: a project entry contains an invalid file in the `files` list"],
                      none)
          else
            .ok ([str "error: a project entry contains an invalid file in the `entry_point`"],
              none)

/-- The project loop of `BuildFile::from_workspace`: unwrap each array
element as a table, resolve it, skip the `none`s, and keep the printed
error messages in order. -/
def parse_projects (fs : FS) : List Toml → Except Unit (List Str × List Project)
  | [] => .ok ([], [])
  | v :: rest =>
    match v.as_table with
    | .error e => .error e
    | .ok t =>
      match parse_project fs t with
      | .error e => .error e
      | .ok (log, proj?) =>
        match parse_projects fs rest with
        | .error e => .error e
        | .ok (logs, projs) =>
          match proj? with
          | some p => .ok (log ++ logs, p :: projs)
          | none => .ok (log ++ logs, projs)

/-- Embedding of `BuildFile::from_workspace`: reads `build.toml` from the working
directory and parses it with the external TOML parser `parse` (whose
panic on malformed TOML is `Except.error`).  Returns the error messages
printed and `none` when the run is aborted (missing manifest or missing
`[[project]]` list). -/
def from_workspace (fs : FS) (parse : Str → Except Unit (List (Str × Toml))) :
    Except Unit (List Str × Option BuildFile) :=
  match fsRead fs (str "build.toml") with
  | none => .ok ([str "error: could not find `build.toml` file"], none)
  | some contents =>
    match parse contents with
    | .error e => .error e
    | .ok table =>
      match tget table (str "project") with
      | none => .ok ([str "error: missing [[project]] field in build.toml"], none)
      | some value =>
        match value.as_array with
        | .error e => .error e
        | .ok array =>
          match parse_projects fs array with
          | .error e => .error e
          | .ok (logs, projects) =>
            .ok (logs, some ⟨projects, DEFAULT_REQUIRE_FUNCTION⟩)

/-- The build loop of `main`: build every resolved project in order,
collecting the `(path, contents)` pairs written. -/
def build_all (preamble : Str) (spawn : Str → ProcessOutput) (fs : FS)
    (require_function : Str) : List Project → Except Unit (List (Str × Str))
  | [] => .ok []
  | p :: rest =>
    match Project.build preamble spawn fs p require_function with
    | .error e => .error e
    | .ok out =>
      match build_all preamble spawn fs require_function rest with
      | .error e => .error e
      | .ok outs => .ok (out :: outs)

/-- Embedding of `main`: load the manifest and build every project.  The result is the
list of error messages printed and the list of output files written;
`Except.error` is a panic aborting the run. -/
def main (preamble : Str) (spawn : Str → ProcessOutput) (fs : FS)
    (parse : Str → Except Unit (List (Str × Toml))) :
    Except Unit (List Str × List (Str × Str)) :=
  match from_workspace fs parse with
  | .error e => .error e
  | .ok (logs, none) => .ok (logs, [])
  | .ok (logs, some build) =>
    match build_all preamble spawn fs build.require_function build.projects with
    | .error e => .error e
    | .ok outs => .ok (logs, outs)

end LuaBundle

namespace LuaBundle

example : rustLines (str "a\nb") = [str "a", str "b"] := by decide
example : rustLines (str "a\n") = [str "a"] := by decide
example : rustLines (str "") = [] := by decide
example : rustLines (str "a\r\nb\r") = [str "a", str "b\r"] := by decide
example : indent_block (str "a\n\nb") 1 = str "\ta\n\t\n\tb" := by decide
example : str "ab".data.asString = str "ab" := by decide

-- path model sanity
example : path_without_extension (str "src/a.lua") = str "src/a" := by decide
example : path_without_extension (str "a/.gitignore") = str "a/.gitignore" := by decide
example : path_without_extension (str "a.b.c") = str "a.b" := by decide
example : path_without_extension (str "noext") = str "noext" := by decide
example : extension (str "src/a.fnl") = some (str "fnl") := by decide
example : extension (str ".gitignore") = none := by decide
example : extension (str "foo.") = some [] := by decide
example : extension (str "a/b") = none := by decide
example : stemOfName (str "..a") = str "." := by decide
example : joinPath (str "build") (str "a.lua") = str "build/a.lua" := by decide

-- utf8 lossy sanity (maximal-subpart substitution)
example : utf8Lossy [0x61, 0xFF, 0x62] = [0x61, 0xFFFD, 0x62] := by decide
example : utf8Lossy [0xE2, 0x82, 0xAC] = [0x20AC] := by decide
example : utf8Lossy [0xE2, 0x82] = [0xFFFD] := by decide
example : utf8Lossy [0xE2, 0x82, 0x41] = [0xFFFD, 0x41] := by decide
example : utf8Lossy [0xED, 0xA0, 0x80] = [0xFFFD, 0xFFFD, 0xFFFD] := by decide
example : utf8Lossy [0xF0, 0x9F, 0x92, 0x96] = [0x1F496] := by decide
example : utf8Lossy [0xC0, 0xAF] = [0xFFFD, 0xFFFD] := by decide

-- wrapper sanity: insert_module "m" "x\n" "require" 1
example :
    insert_module (str "m") (str "x\n") (str "require") 1 =
      str "\t\n\t[\"m\"] = function(functions)\n\t\tlocal require, functions, get_require = get_require(functions), nil, nil\n\t\t\n\t\tx\n\tend," := by
  decide

-- parse_project sanity
example :
    parse_project [(str "main.lua", str "print(1)")]
      [(str "entry_point", Toml.s (str "main.lua")),
       (str "files", Toml.arr [Toml.s (str "main.lua")])] =
      .ok ([], some ⟨str "a.lua", str "build", str "main.lua", [str "main.lua"],
        LuaVersion.Default⟩) := rfl

example :
    parse_project [] [(str "entry_point", Toml.s (str "main.lua"))] =
      .ok ([str "error: a project entry contains an invalid file in the `entry_point`"],
        none) := rfl

/-! Helper lemmas about the line model. -/

theorem splitNl_ne_nil (s : Str) : splitNl s ≠ [] := by
  induction s with
  | nil => simp [splitNl]
  | cons c cs ih =>
    simp only [splitNl]
    split
    · simp
    · cases h : splitNl cs with
      | nil => exact absurd h ih
      | cons l ls => simp

theorem splitNl_append_newline (a rest : Str) (ha : '\n' ∉ a) :
    splitNl (a ++ '\n' :: rest) = a :: splitNl rest := by
  induction a with
  | nil => simp [splitNl]
  | cons c a' ih =>
    have hc : c ≠ '\n' := fun h => ha (h ▸ List.mem_cons_self c a')
    have ha' : '\n' ∉ a' := fun h => ha (List.mem_cons_of_mem c h)
    simp only [List.cons_append, splitNl, if_neg hc, List.append_eq, ih ha']

theorem splitNl_of_not_mem (a : Str) (ha : '\n' ∉ a) : splitNl a = [a] := by
  induction a with
  | nil => rfl
  | cons c a' ih =>
    have hc : c ≠ '\n' := fun h => ha (h ▸ List.mem_cons_self c a')
    have ha' : '\n' ∉ a' := fun h => ha (List.mem_cons_of_mem c h)
    simp only [splitNl, if_neg hc, ih ha']

theorem stripCR_of_not_mem (l : Str) (h : '\r' ∉ l) : stripCR l = l := by
  unfold stripCR
  split
  · next hl => exact absurd (List.mem_of_mem_getLast? hl) h
  · rfl

theorem rustLinesAux_cons (l : Str) (ps : List Str) (h : ps ≠ []) :
    rustLinesAux (l :: ps) = stripCR l :: rustLinesAux ps := by
  cases ps with
  | nil => exact absurd rfl h
  | cons q qs => rfl

theorem rustLines_append_newline (a rest : Str) (ha : '\n' ∉ a) :
    rustLines (a ++ '\n' :: rest) = stripCR a :: rustLines rest := by
  unfold rustLines
  rw [splitNl_append_newline a rest ha, rustLinesAux_cons a _ (splitNl_ne_nil rest)]

theorem rustLines_newline_cons (rest : Str) :
    rustLines ('\n' :: rest) = [] :: rustLines rest := by
  have h := rustLines_append_newline [] rest (by simp)
  simpa [stripCR] using h

theorem rustLines_single (a : Str) (ha : '\n' ∉ a) (hne : a ≠ []) :
    rustLines a = [a] := by
  unfold rustLines
  rw [splitNl_of_not_mem a ha]
  simp [rustLinesAux, hne]

theorem joinNl_cons (l : Str) (ls : List Str) (h : ls ≠ []) :
    joinNl (l :: ls) = l ++ '\n' :: joinNl ls := by
  cases ls with
  | nil => exact absurd rfl h
  | cons q qs => rfl

/-- Re-splitting a newline-join followed by more terminated text recovers
the joined lines, provided none of them contains a newline or a carriage
return. -/
theorem rustLines_joinNl_append (ls : List Str) (rest : Str) (hne : ls ≠ [])
    (h : ∀ l ∈ ls, '\n' ∉ l ∧ '\r' ∉ l) :
    rustLines (joinNl ls ++ '\n' :: rest) = ls ++ rustLines rest := by
  induction ls with
  | nil => exact absurd rfl hne
  | cons l ls' ih =>
    cases ls' with
    | nil =>
      have hl := h l (List.mem_cons_self l [])
      simp only [joinNl, List.cons_append, List.nil_append]
      rw [rustLines_append_newline l rest hl.1, stripCR_of_not_mem l hl.2]
    | cons x xs =>
      have hl := h l (List.mem_cons_self l _)
      have hrest : ∀ l' ∈ x :: xs, '\n' ∉ l' ∧ '\r' ∉ l' :=
        fun l' hl' => h l' (List.mem_cons_of_mem l hl')
      rw [joinNl_cons l (x :: xs) (by simp), List.append_assoc, List.cons_append,
        rustLines_append_newline l _ hl.1, stripCR_of_not_mem l hl.2,
        ih (by simp) hrest]
      rfl

/-- Re-splitting a newline-join recovers the joined lines, provided none
contains a newline or carriage return and the last one is not empty. -/
theorem rustLines_joinNl (ls : List Str) (h : ∀ l ∈ ls, '\n' ∉ l ∧ '\r' ∉ l)
    (hlast : ls.getLast? ≠ some []) :
    rustLines (joinNl ls) = ls := by
  induction ls with
  | nil => rfl
  | cons l ls' ih =>
    cases ls' with
    | nil =>
      have hl := h l (List.mem_cons_self l [])
      have hne : l ≠ [] := by
        intro he
        exact hlast (by simp [he])
      simp only [joinNl]
      exact rustLines_single l hl.1 hne
    | cons x xs =>
      have hl := h l (List.mem_cons_self l _)
      have hrest : ∀ l' ∈ x :: xs, '\n' ∉ l' ∧ '\r' ∉ l' :=
        fun l' hl' => h l' (List.mem_cons_of_mem l hl')
      rw [joinNl_cons l (x :: xs) (by simp), rustLines_append_newline l _ hl.1,
        stripCR_of_not_mem l hl.2, ih hrest (by rwa [List.getLast?_cons_cons] at hlast)]

theorem mem_splitNl_no_newline : ∀ {s l : Str}, l ∈ splitNl s → '\n' ∉ l := by
  intro s
  induction s with
  | nil =>
    intro l hl
    simp only [splitNl, List.mem_singleton] at hl
    simp [hl]
  | cons c cs ih =>
    intro l hl
    simp only [splitNl] at hl
    split at hl
    · rcases List.mem_cons.1 hl with h | h
      · simp [h]
      · exact ih h
    · next hc =>
      cases hq : splitNl cs with
      | nil => exact absurd hq (splitNl_ne_nil cs)
      | cons q qs =>
        rw [hq] at hl
        rcases List.mem_cons.1 hl with h | h
        · subst h
          intro hm
          rcases List.mem_cons.1 hm with h' | h'
          · exact hc h'.symm
          · exact ih (hq ▸ List.mem_cons_self q qs) h'
        · exact ih (hq ▸ List.mem_cons_of_mem q h)

theorem mem_splitNl_subset : ∀ {s l : Str}, l ∈ splitNl s → ∀ {c : Char}, c ∈ l → c ∈ s := by
  intro s
  induction s with
  | nil =>
    intro l hl
    simp only [splitNl, List.mem_singleton] at hl
    simp [hl]
  | cons a cs ih =>
    intro l hl c hc
    simp only [splitNl] at hl
    split at hl
    · rcases List.mem_cons.1 hl with h | h
      · simp [h] at hc
      · exact List.mem_cons_of_mem a (ih h hc)
    · cases hq : splitNl cs with
      | nil => exact absurd hq (splitNl_ne_nil cs)
      | cons q qs =>
        rw [hq] at hl
        rcases List.mem_cons.1 hl with h | h
        · subst h
          rcases List.mem_cons.1 hc with h' | h'
          · simp [h']
          · exact List.mem_cons_of_mem a (ih (hq ▸ List.mem_cons_self q qs) h')
        · exact List.mem_cons_of_mem a (ih (hq ▸ List.mem_cons_of_mem q h) hc)

theorem mem_stripCR_subset {l : Str} {c : Char} (h : c ∈ stripCR l) : c ∈ l := by
  unfold stripCR at h
  split at h
  · exact (List.dropLast_sublist l).mem h
  · exact h

theorem mem_rustLinesAux : ∀ {ps : List Str} {l : Str}, l ∈ rustLinesAux ps →
    ∃ q ∈ ps, l = stripCR q ∨ l = q := by
  intro ps
  induction ps with
  | nil => intro l hl; simp [rustLinesAux] at hl
  | cons q qs ih =>
    intro l hl
    cases qs with
    | nil =>
      simp only [rustLinesAux] at hl
      split at hl
      · simp at hl
      · simp only [List.mem_singleton] at hl
        exact ⟨q, List.mem_cons_self q [], Or.inr hl⟩
    | cons q' qs' =>
      rw [rustLinesAux_cons q (q' :: qs') (by simp)] at hl
      rcases List.mem_cons.1 hl with h | h
      · exact ⟨q, List.mem_cons_self q _, Or.inl h⟩
      · rcases ih h with ⟨w, hw, hw'⟩
        exact ⟨w, List.mem_cons_of_mem q hw, hw'⟩

theorem rustLines_no_newline {s l : Str} (h : l ∈ rustLines s) : '\n' ∉ l := by
  rcases mem_rustLinesAux h with ⟨q, hq, hcase⟩
  have hqn := mem_splitNl_no_newline hq
  rcases hcase with h' | h'
  · exact fun hm => hqn (mem_stripCR_subset (h' ▸ hm))
  · exact h' ▸ hqn

theorem rustLines_subset {s l : Str} (h : l ∈ rustLines s) {c : Char} (hc : c ∈ l) :
    c ∈ s := by
  rcases mem_rustLinesAux h with ⟨q, hq, hcase⟩
  rcases hcase with h' | h'
  · exact mem_splitNl_subset hq (mem_stripCR_subset (h' ▸ hc))
  · exact mem_splitNl_subset hq (h' ▸ hc)

theorem mem_joinNl {c : Char} : ∀ {ls : List Str}, c ∈ joinNl ls →
    c = '\n' ∨ ∃ l ∈ ls, c ∈ l := by
  intro ls
  induction ls with
  | nil => intro h; simp [joinNl] at h
  | cons l ls' ih =>
    intro h
    cases ls' with
    | nil =>
      exact Or.inr ⟨l, List.mem_cons_self l [], h⟩
    | cons x xs =>
      rw [joinNl_cons l (x :: xs) (by simp)] at h
      rcases List.mem_append.1 h with h' | h'
      · exact Or.inr ⟨l, List.mem_cons_self l _, h'⟩
      · rcases List.mem_cons.1 h' with h'' | h''
        · exact Or.inl h''
        · rcases ih h'' with h3 | ⟨w, hw, hw'⟩
          · exact Or.inl h3
          · exact Or.inr ⟨w, List.mem_cons_of_mem l hw, hw'⟩

theorem not_mem_tabs {c : Char} (h : c ≠ '\t') (n : Nat) : c ∉ tabs n := by
  intro hm
  exact h (List.eq_of_mem_replicate hm)

theorem not_mem_indent {c : Char} {x : Str} (n : Nat) (h : c ≠ '\t') (hx : c ∉ x) :
    c ∉ tabs n ++ x := by
  intro hm
  rcases List.mem_append.1 hm with hm | hm
  · exact not_mem_tabs h n hm
  · exact hx hm

theorem not_mem_require_header {c : Char} {r : Str} (h1 : c ∉ r)
    (h2 : c ∉ str "local ")
    (h3 : c ∉ str ", functions, get_require = get_require(functions), nil, nil") :
    c ∉ require_header r := by
  unfold require_header
  intro hm
  rcases List.mem_append.1 hm with hm | hm
  · rcases List.mem_append.1 hm with hm | hm
    · exact h2 hm
    · exact h1 hm
  · exact h3 hm

theorem not_mem_module_header {c : Char} {k : Str} (h1 : c ∉ k)
    (h2 : c ∉ str "[\"") (h3 : c ∉ str "\"] = function(functions)") :
    c ∉ module_header k := by
  unfold module_header
  intro hm
  rcases List.mem_append.1 hm with hm | hm
  · rcases List.mem_append.1 hm with hm | hm
    · exact h2 hm
    · exact h1 hm
  · exact h3 hm

theorem rustLines_inject_require (s r : Str) (hr : '\n' ∉ r) (hr2 : '\r' ∉ r) :
    rustLines (inject_require s r) = require_header r :: [] :: rustLines s := by
  unfold inject_require
  rw [rustLines_append_newline _ _ (not_mem_require_header hr (by decide) (by decide)),
    stripCR_of_not_mem _ (not_mem_require_header hr2 (by decide) (by decide)),
    rustLines_newline_cons]

theorem tabs_succ (n : Nat) : tabs (n + 1) = tabs n ++ tabs 1 :=
  List.replicate_add n 1 '\t'

/-- The exact list of lines of a wrapped module block: the blank line,
the keyed factory header at `level` tabs, the accessor-shadowing line and
the separator blank line at `level + 1` tabs, every line of the module
source at `level + 1` additional tabs, and the closing `end,` at `level`
tabs. -/
theorem insert_module_lines (k s r : Str) (L : Nat)
    (hk : '\n' ∉ k) (hk2 : '\r' ∉ k) (hr : '\n' ∉ r) (hr2 : '\r' ∉ r)
    (hs : '\r' ∉ s) :
    rustLines (insert_module k s r L) =
      tabs L :: (tabs L ++ module_header k) :: (tabs (L + 1) ++ require_header r) ::
        tabs (L + 1) ::
          ((rustLines s).map (fun l => tabs (L + 1) ++ l) ++ [tabs L ++ str "end,"]) := by
  have hreq_n : '\n' ∉ require_header r :=
    not_mem_require_header hr (by decide) (by decide)
  have hreq_r : '\r' ∉ require_header r :=
    not_mem_require_header hr2 (by decide) (by decide)
  have hmod_n : '\n' ∉ module_header k :=
    not_mem_module_header hk (by decide) (by decide)
  have hmod_r : '\r' ∉ module_header k :=
    not_mem_module_header hk2 (by decide) (by decide)
  have hinner : rustLines (inject_require s r) = require_header r :: [] :: rustLines s :=
    rustLines_inject_require s r hr hr2
  -- the indented inner lines
  have hLs : (rustLines (inject_require s r)).map (fun l => tabs 1 ++ l) =
      (tabs 1 ++ require_header r) :: tabs 1 ::
        (rustLines s).map (fun l => tabs 1 ++ l) := by
    rw [hinner]
    simp
  have hLsclean : ∀ l ∈ (rustLines (inject_require s r)).map (fun l => tabs 1 ++ l),
      '\n' ∉ l ∧ '\r' ∉ l := by
    intro l hl
    rcases List.mem_map.1 hl with ⟨x, hx, hfx⟩
    subst hfx
    refine ⟨not_mem_indent 1 (by decide) (rustLines_no_newline hx), ?_⟩
    refine not_mem_indent 1 (by decide) ?_
    intro hm
    have := rustLines_subset hx hm
    unfold inject_require at this
    rcases List.mem_append.1 this with h' | h'
    · exact hreq_r h'
    · rcases List.mem_cons.1 h' with h'' | h''
      · exact absurd h'' (by decide)
      · rcases List.mem_cons.1 h'' with h3 | h3
        · exact absurd h3 (by decide)
        · exact hs h3
  have hLsne : (rustLines (inject_require s r)).map (fun l => tabs 1 ++ l) ≠ [] := by
    rw [hLs]; simp
  -- the lines of the un-indented wrapped entry
  have hend : rustLines (str "end,\n") = [str "end,"] := by decide
  have houter : rustLines
      ('\n' :: (module_header k ++ '\n' ::
        (joinNl ((rustLines (inject_require s r)).map (fun line => tabs 1 ++ line)) ++
          '\n' :: str "end,\n"))) =
      [] :: module_header k ::
        (((rustLines (inject_require s r)).map (fun line => tabs 1 ++ line)) ++
          [str "end,"]) := by
    rw [rustLines_newline_cons, rustLines_append_newline _ _ hmod_n,
      stripCR_of_not_mem _ hmod_r,
      rustLines_joinNl_append _ _ hLsne hLsclean, hend]
  -- characters of the un-indented wrapped entry
  have houter_clean : ∀ x ∈ [] :: module_header k ::
      (((rustLines (inject_require s r)).map (fun line => tabs 1 ++ line)) ++
        [str "end,"]),
      '\n' ∉ x ∧ '\r' ∉ x := by
    intro x hx
    rcases List.mem_cons.1 hx with h | h
    · subst h; exact ⟨by simp, by simp⟩
    rcases List.mem_cons.1 h with h | h
    · subst h; exact ⟨hmod_n, hmod_r⟩
    rcases List.mem_append.1 h with h | h
    · exact hLsclean x h
    · rcases List.mem_singleton.1 h with rfl
      exact ⟨by decide, by decide⟩
  show rustLines (indent_block ('\n' :: (module_header k ++ '\n' ::
    (indent_block (inject_require s r) 1 ++ '\n' :: str "end,\n"))) L) = _
  unfold indent_block
  rw [houter, rustLines_joinNl]
  · have hcomp : ∀ x : Str, tabs L ++ (tabs 1 ++ x) = tabs (L + 1) ++ x := by
      intro x
      rw [← List.append_assoc, ← tabs_succ]
    rw [hLs]
    simp only [List.map_cons, List.map_append, List.map_map, List.map_nil,
      List.map_singleton, List.append_nil, Function.comp_def, hcomp]
    rw [← tabs_succ]
    rfl
  · intro l hl
    rcases List.mem_map.1 hl with ⟨x, hx, hfx⟩
    subst hfx
    rcases houter_clean x hx with ⟨hxn, hxr⟩
    exact ⟨not_mem_indent L (by decide) hxn, not_mem_indent L (by decide) hxr⟩
  · intro hlastx
    rw [List.getLast?_map, List.getLast?_cons_cons, ← List.cons_append,
      List.getLast?_concat] at hlastx
    simp only [Option.map_some', Option.some.injEq, List.append_eq_nil] at hlastx
    exact absurd hlastx.2 (by decide)

theorem indent_cons_ne_module (k : Str) (L : Nat) (c : Char) (hc : c ≠ '[') (y : Str) :
    tabs L ++ c :: y ≠ tabs L ++ module_header k := by
  intro h
  have h' := List.append_cancel_left h
  have hh : c :: y = '[' :: ('"' :: (k ++ str "\"] = function(functions)")) := h'
  injection hh with h1 _
  exact hc h1

theorem indent_succ_ne_module (k y : Str) (L : Nat) :
    tabs (L + 1) ++ y ≠ tabs L ++ module_header k := by
  rw [tabs_succ, List.append_assoc]
  exact indent_cons_ne_module k L '\t' (by decide) y

/-- C2: for every module key `k`, source text `s`, accessor name `r` and
indent level `L` (with `k` and `r` free of line breaks and carriage
returns, and `s` free of carriage returns), the wrapped block
`insert_module k s r L` contains exactly one factory-entry header line
for the double-quoted key `k` (at `L` tabs of indentation), and every
line of `s` appears in the block indented by exactly `L + 1` more tab
units than it had in `s`. -/
theorem insert_module_wrapping_shape (k s r : Str) (L : Nat)
    (hk : '\n' ∉ k) (hk2 : '\r' ∉ k) (hr : '\n' ∉ r) (hr2 : '\r' ∉ r)
    (hs : '\r' ∉ s) :
    (rustLines (insert_module k s r L)).count (tabs L ++ module_header k) = 1 ∧
      ∀ l ∈ rustLines s, tabs (L + 1) ++ l ∈ rustLines (insert_module k s r L) := by
  rw [insert_module_lines k s r L hk hk2 hr hr2 hs]
  have h1 : tabs L ≠ tabs L ++ module_header k := by
    intro h
    nth_rewrite 1 [← List.append_nil (tabs L)] at h
    have h' := List.append_cancel_left h
    exact List.noConfusion
      (show ([] : Str) = '[' :: ('"' :: (k ++ str "\"] = function(functions)")) from h')
  have h2 : tabs (L + 1) ++ require_header r ≠ tabs L ++ module_header k :=
    indent_succ_ne_module k (require_header r) L
  have h3 : tabs (L + 1) ≠ tabs L ++ module_header k := by
    have h := indent_succ_ne_module k [] L
    simpa using h
  have h4 : tabs L ++ str "end," ≠ tabs L ++ module_header k :=
    indent_cons_ne_module k L 'e' (by decide) (str "nd,")
  have hmap : List.count (tabs L ++ module_header k)
      ((rustLines s).map (fun l => tabs (L + 1) ++ l)) = 0 := by
    rw [List.count_eq_zero]
    intro hmem
    rcases List.mem_map.1 hmem with ⟨y, _, hfy⟩
    exact indent_succ_ne_module k y L hfy
  constructor
  · simp [List.count_cons, List.count_append, List.count_nil, hmap,
      h1, h2, h3, h4, beq_iff_eq]
  · intro l hl
    simp only [List.mem_cons, List.mem_append, List.mem_map, List.mem_singleton]
    exact Or.inr (Or.inr (Or.inr (Or.inr (Or.inl ⟨l, hl, rfl⟩))))

theorem insert_module_wrapping_shape_witness :
    (rustLines (insert_module (str "m") (str "print(1)\n") (str "require") 1)).count
        (tabs 1 ++ module_header (str "m")) = 1 ∧
      ∀ l ∈ rustLines (str "print(1)\n"),
        tabs 2 ++ l ∈
          rustLines (insert_module (str "m") (str "print(1)\n") (str "require") 1) :=
  insert_module_wrapping_shape (str "m") (str "print(1)\n") (str "require") 1
    (by decide) (by decide) (by decide) (by decide) (by decide)

/-- C4 counterexample: in `indent_block`, a blank input line does not
remain blank: the second line of `"a\n\nb"` is empty, but the second line
of `indent_block "a\n\nb" 1` is a single tab, not the empty line. -/
theorem indent_block_blank_line_padded_cex :
    (rustLines (str "a\n\nb")).get? 1 = some [] ∧
      (rustLines (indent_block (str "a\n\nb") 1)).get? 1 = some (str "\t") ∧
      str "\t" ≠ ([] : Str) := by decide

/-- C4 (amended): in the module wrapper's re-indent step, every line of
the input — including blank ones — is prefixed with the `level` tabs of
indentation, so a blank input line appears as a line of exactly `level`
tab characters rather than staying blank (stated for carriage-return-free
input at a positive indent level). -/
theorem indent_block_pads_every_line (s : Str) (L : Nat)
    (hs : '\r' ∉ s) (hL : 0 < L) :
    rustLines (indent_block s L) = (rustLines s).map (fun l => tabs L ++ l) := by
  unfold indent_block
  apply rustLines_joinNl
  · intro l hl
    rcases List.mem_map.1 hl with ⟨y, hy, rfl⟩
    exact ⟨not_mem_indent L (by decide) (rustLines_no_newline hy),
      not_mem_indent L (by decide) (fun hm => hs (rustLines_subset hy hm))⟩
  · intro h
    rw [List.getLast?_map] at h
    cases hg : (rustLines s).getLast? with
    | none => rw [hg] at h; simp at h
    | some y =>
      rw [hg] at h
      simp only [Option.map_some', Option.some.injEq, List.append_eq_nil] at h
      have h2 := congrArg List.length h.1
      simp [tabs] at h2
      omega

theorem indent_block_pads_every_line_witness :
    rustLines (indent_block (str "a\n\nb") 1) =
      (rustLines (str "a\n\nb")).map (fun l => tabs 1 ++ l) :=
  indent_block_pads_every_line (str "a\n\nb") 1 (by decide) (by decide)

/-! Helper lemmas about the path model. -/

theorem exists_dropWhile_dot (r : Str) (h : '.' ∈ r) :
    ∃ t, r.dropWhile (fun c => c ≠ '.') = '.' :: t := by
  induction r with
  | nil => simp at h
  | cons a r' ih =>
    by_cases ha : a = '.'
    · subst ha
      exact ⟨r', by simp [List.dropWhile_cons]⟩
    · have h' : '.' ∈ r' := by
        rcases List.mem_cons.1 h with h | h
        · exact absurd h.symm ha
        · exact h
      rcases ih h' with ⟨t, ht⟩
      refine ⟨t, ?_⟩
      rw [List.dropWhile_cons, if_pos (decide_eq_true ha), ht]

theorem beforeLastDot_append (l : Str) (h : '.' ∈ l) :
    beforeLastDot l ++ '.' :: afterLastDot l = l := by
  have hr : '.' ∈ l.reverse := List.mem_reverse.2 h
  rcases exists_dropWhile_dot l.reverse hr with ⟨t, ht⟩
  have hsplit := List.takeWhile_append_dropWhile
    (p := fun c => decide (c ≠ '.')) (l := l.reverse)
  rw [ht] at hsplit
  unfold beforeLastDot afterLastDot
  rw [ht]
  calc (('.' :: t).drop 1).reverse ++ '.' :: (l.reverse.takeWhile (fun c => c ≠ '.')).reverse
      = (l.reverse.takeWhile (fun c => c ≠ '.') ++ '.' :: t).reverse := by
        simp [List.reverse_append, List.append_assoc]
    _ = l.reverse.reverse := by rw [hsplit]
    _ = l := List.reverse_reverse l

theorem not_dot_mem_afterLastDot (l : Str) : '.' ∉ afterLastDot l := by
  unfold afterLastDot
  intro hm
  have hp := List.mem_takeWhile_imp (List.mem_reverse.1 hm)
  simp at hp

theorem dirPart_append_lastComponent (p : Str) : dirPart p ++ lastComponent p = p := by
  unfold dirPart lastComponent
  rw [← List.reverse_append, List.takeWhile_append_dropWhile, List.reverse_reverse]

theorem file_name_eq (p : Str) {n : Str} (h : file_name p = some n) :
    n = lastComponent p ∧ n ≠ [] := by
  unfold file_name at h
  split at h
  · exact absurd h (by simp)
  · next hcond =>
    have hn := Option.some.inj h
    refine ⟨hn.symm, ?_⟩
    rw [← hn]
    intro he
    exact hcond (Or.inl he)

theorem extension_cons (p : Str) (c : Char) (cs : Str)
    (h : file_name p = some (c :: cs)) :
    extension p = if '.' ∈ cs then some (afterLastDot cs) else none := by
  unfold extension
  rw [h]

theorem extension_of_file_name_none (p : Str) (h : file_name p = none) :
    extension p = none := by
  unfold extension
  rw [h]

/-- C3: the path normalizer removes exactly the final extension component
(the substring after the last dot of the file name, itself dot-free): when
an extension exists, appending a dot and the extension to the module key
recovers the path; when no extension exists the key is the path unchanged;
and a file name that begins with a dot and has no further dot is treated
as extensionless, the key keeping the full dotfile name. -/
theorem path_without_extension_spec (p : Str) :
    (∀ e, extension p = some e →
      path_without_extension p ++ '.' :: e = p ∧ '.' ∉ e) ∧
      (extension p = none → path_without_extension p = p) ∧
      (∀ cs, lastComponent p = '.' :: cs → '.' ∉ cs →
        path_without_extension p = p ∧ extension p = none) := by
  have hpart2 : extension p = none → path_without_extension p = p := by
    intro hext
    unfold path_without_extension file_stem
    cases hfn : file_name p with
    | none => simp
    | some n =>
      rcases file_name_eq p hfn with ⟨hn, hne⟩
      cases n with
      | nil => exact absurd rfl hne
      | cons c cs =>
        rw [extension_cons p c cs hfn] at hext
        by_cases hdot : '.' ∈ cs
        · rw [if_pos hdot] at hext
          exact absurd hext (by simp)
        · simp only [Option.map_some', stemOfName, set_file_name, if_neg hdot]
          rw [hn]
          exact dirPart_append_lastComponent p
  refine ⟨?_, hpart2, ?_⟩
  · intro e hext
    cases hfn : file_name p with
    | none => exact absurd (extension_of_file_name_none p hfn ▸ hext) (by simp)
    | some n =>
      rcases file_name_eq p hfn with ⟨hn, hne⟩
      cases n with
      | nil => exact absurd rfl hne
      | cons c cs =>
        rw [extension_cons p c cs hfn] at hext
        by_cases hdot : '.' ∈ cs
        · rw [if_pos hdot] at hext
          have he : e = afterLastDot cs := (Option.some.inj hext).symm
          subst he
          refine ⟨?_, not_dot_mem_afterLastDot cs⟩
          unfold path_without_extension file_stem
          rw [hfn]
          simp only [Option.map_some', stemOfName, set_file_name, if_pos hdot]
          rw [List.append_assoc, List.cons_append,
            beforeLastDot_append cs hdot, hn]
          exact dirPart_append_lastComponent p
        · rw [if_neg hdot] at hext
          exact absurd hext (by simp)
  · intro cs hlast hnd
    have hext : extension p = none := by
      unfold extension file_name
      rw [hlast]
      by_cases hcs : cs = []
      · subst hcs
        simp [str]
      · have h1 : ¬('.' :: cs = [] ∨ '.' :: cs = str "." ∨ '.' :: cs = str "..") := by
          intro hor
          rcases hor with h | h | h
          · exact List.noConfusion h
          · have : cs = [] := by
              have hh : '.' :: cs = ['.'] := h
              injection hh
            exact hcs this
          · have hh : '.' :: cs = ['.', '.'] := h
            have : cs = ['.'] := by injection hh
            rw [this] at hnd
            simp at hnd
        rw [if_neg h1]
        simp [hnd]
    exact ⟨hpart2 hext, hext⟩

theorem path_without_extension_spec_witness :
    (path_without_extension (str "src/mod.v2.lua") ++ '.' :: str "lua" =
        str "src/mod.v2.lua" ∧ '.' ∉ str "lua") ∧
      path_without_extension (str "noext") = str "noext" ∧
      (path_without_extension (str "a/.gitignore") = str "a/.gitignore" ∧
        extension (str "a/.gitignore") = none) :=
  ⟨(path_without_extension_spec (str "src/mod.v2.lua")).1 (str "lua") (by decide),
    (path_without_extension_spec (str "noext")).2.1 (by decide),
    (path_without_extension_spec (str "a/.gitignore")).2.2 (str "gitignore")
      (by decide) (by decide)⟩

/-! Build-level theorems. -/

theorem buildBlocks_ok (spawn : Str → ProcessOutput) (fs : FS) (rm : Str) :
    ∀ files : List Str,
      (∀ f ∈ files, (fsRead fs f).isSome ∧ (extension f).isSome) →
      buildBlocks spawn fs rm files =
        .ok ((files.map (fun f =>
          insert_module (path_without_extension f) (transformed spawn fs f) rm 1)).flatten) := by
  intro files
  induction files with
  | nil => intro _; rfl
  | cons f rest ih =>
    intro h
    rcases h f (List.mem_cons_self f rest) with ⟨h1, h2⟩
    rcases Option.isSome_iff_exists.1 h1 with ⟨c, hc⟩
    rcases Option.isSome_iff_exists.1 h2 with ⟨e, he⟩
    have htr : transformed spawn fs f = transform_content spawn e c := by
      unfold transformed
      rw [hc, he]
      rfl
    simp only [buildBlocks, hc, he, ih (fun g hg => h g (List.mem_cons_of_mem f hg)),
      List.map_cons, List.flatten_cons, htr]

/-- C1: for a project whose resolved files are all readable and carry an
extension, `Project.build` writes to `output/name` exactly the
concatenation of the opaque runtime preamble, the module-table opening,
one wrapped-module block per file in file-list order, the module-table
close, and the epilogue invoking `require` on the entry point's
extension-stripped module key. -/
theorem build_concatenation_shape (preamble : Str) (spawn : Str → ProcessOutput)
    (fs : FS) (p : Project) (require_method : Str)
    (h : ∀ f ∈ p.files, (fsRead fs f).isSome ∧ (extension f).isSome) :
    Project.build preamble spawn fs p require_method =
      .ok (joinPath p.output p.name,
        preamble ++ str "\nlocal files = \x7b" ++
          (p.files.map (fun f =>
            insert_module (path_without_extension f) (transformed spawn fs f)
              require_method 1)).flatten ++
          str "\n\x7d\n" ++
          insert_entry_point (path_without_extension p.entry_point)) := by
  unfold Project.build
  rw [buildBlocks_ok spawn fs require_method p.files h]

theorem build_concatenation_shape_witness :
    Project.build (str "P") (fun _ => ⟨0, []⟩)
        [(str "m.lua", str "x = 1\n")]
        ⟨str "out.lua", str "build", str "m.lua", [str "m.lua"], LuaVersion.Default⟩
        (str "require") =
      .ok (joinPath (str "build") (str "out.lua"),
        str "P" ++ str "\nlocal files = \x7b" ++
          ([str "m.lua"].map (fun f =>
            insert_module (path_without_extension f)
              (transformed (fun _ => ⟨0, []⟩) [(str "m.lua", str "x = 1\n")] f)
              (str "require") 1)).flatten ++
          str "\n\x7d\n" ++
          insert_entry_point (path_without_extension (str "m.lua"))) :=
  build_concatenation_shape (str "P") (fun _ => ⟨0, []⟩)
    [(str "m.lua", str "x = 1\n")]
    ⟨str "out.lua", str "build", str "m.lua", [str "m.lua"], LuaVersion.Default⟩
    (str "require") (by decide)

/-- C5: the per-file transform in `Project::build` is gated purely by the
file extension: a file whose extension is `fnl` has its contents piped
through the external compiler before wrapping, and a file with any other
extension is wrapped with its contents byte-identical. -/
theorem transform_gating_by_extension (spawn : Str → ProcessOutput) (fs : FS)
    (require_method : Str) (f : Str) (rest : List Str) (e c bs : Str)
    (he : extension f = some e) (hc : fsRead fs f = some c)
    (hrest : buildBlocks spawn fs require_method rest = .ok bs) :
    buildBlocks spawn fs require_method (f :: rest) =
      .ok (insert_module (path_without_extension f)
        (if e = str "fnl" then compile_fennel_to_lua (spawn c) else c)
        require_method 1 ++ bs) := by
  simp only [buildBlocks, hc, he, hrest, transform_content]

theorem transform_gating_by_extension_witness :
    (buildBlocks (fun _ => ⟨0, [0x2D, 0x2D]⟩)
        [(str "m.lua", str "x = 1"), (str "m.fnl", str "(fn)")] (str "require")
        [str "m.lua"] =
      .ok (insert_module (path_without_extension (str "m.lua"))
        (if str "lua" = str "fnl"
          then compile_fennel_to_lua ((fun _ => (⟨0, [0x2D, 0x2D]⟩ : ProcessOutput)) (str "x = 1"))
          else str "x = 1")
        (str "require") 1 ++ [])) ∧
    (buildBlocks (fun _ => ⟨0, [0x2D, 0x2D]⟩)
        [(str "m.lua", str "x = 1"), (str "m.fnl", str "(fn)")] (str "require")
        [str "m.fnl"] =
      .ok (insert_module (path_without_extension (str "m.fnl"))
        (if str "fnl" = str "fnl"
          then compile_fennel_to_lua ((fun _ => (⟨0, [0x2D, 0x2D]⟩ : ProcessOutput)) (str "(fn)"))
          else str "(fn)")
        (str "require") 1 ++ [])) :=
  ⟨transform_gating_by_extension (fun _ => ⟨0, [0x2D, 0x2D]⟩)
      [(str "m.lua", str "x = 1"), (str "m.fnl", str "(fn)")] (str "require")
      (str "m.lua") [] (str "lua") (str "x = 1") [] (by decide) (by decide) rfl,
    transform_gating_by_extension (fun _ => ⟨0, [0x2D, 0x2D]⟩)
      [(str "m.lua", str "x = 1"), (str "m.fnl", str "(fn)")] (str "require")
      (str "m.fnl") [] (str "fnl") (str "(fn)") [] (by decide) (by decide) rfl⟩

/-- C9: the emitted bundle never depends on the project's declared
`lua_version` tag: two projects identical except for that field build to
identical results (only the file extension gates the transform). -/
theorem build_independent_of_lua_version (preamble : Str)
    (spawn : Str → ProcessOutput) (fs : FS) (name output entry_point : Str)
    (files : List Str) (v₁ v₂ : LuaVersion) (require_method : Str) :
    Project.build preamble spawn fs ⟨name, output, entry_point, files, v₁⟩
        require_method =
      Project.build preamble spawn fs ⟨name, output, entry_point, files, v₂⟩
        require_method := rfl

theorem buildBlocks_err (spawn : Str → ProcessOutput) (fs : FS) (rm : Str) :
    ∀ (files : List Str) (f : Str), f ∈ files → extension f = none →
      buildBlocks spawn fs rm files = .error () := by
  intro files
  induction files with
  | nil => intro f hf; simp at hf
  | cons g rest ih =>
    intro f hf hext
    cases hfr : fsRead fs g with
    | none => simp [buildBlocks, hfr]
    | some c =>
      rcases List.mem_cons.1 hf with rfl | hf'
      · simp [buildBlocks, hfr, hext]
      · cases hge : extension g with
        | none => simp [buildBlocks, hfr, hge]
        | some e =>
          simp [buildBlocks, hfr, hge, ih f hf' hext]

/-- C10: when a resolved project's file list holds a file whose name has
no extension (such as the dotfile `.gitignore`), `Project::build` panics
on the `unwrap` of the missing extension — the build aborts with an error
instead of bundling the file with its contents passed through. -/
theorem build_panics_on_extensionless_file (preamble : Str)
    (spawn : Str → ProcessOutput) (fs : FS) (p : Project) (require_method : Str)
    (f : Str) (hf : f ∈ p.files) (hext : extension f = none) :
    Project.build preamble spawn fs p require_method = .error () := by
  unfold Project.build
  rw [buildBlocks_err spawn fs require_method p.files f hf hext]

theorem build_panics_on_extensionless_file_witness :
    Project.build (str "P") (fun _ => ⟨0, []⟩)
        [(str ".gitignore", str "build/")]
        ⟨str "a.lua", str "build", str ".gitignore", [str ".gitignore"],
          LuaVersion.Default⟩
        (str "require") = .error () :=
  build_panics_on_extensionless_file (str "P") (fun _ => ⟨0, []⟩)
    [(str ".gitignore", str "build/")]
    ⟨str "a.lua", str "build", str ".gitignore", [str ".gitignore"],
      LuaVersion.Default⟩
    (str "require") (str ".gitignore") (by decide) (by decide)

/-- C6: `compile_fennel_to_lua` is the lossy UTF-8 decoding of the
subprocess's full standard output, and it never inspects the exit status:
two process outcomes with the same stdout bytes — whatever their exit
statuses — yield the same compiled text, with no error path. -/
theorem compile_fennel_ignores_exit_status (o₁ o₂ : ProcessOutput)
    (h : o₁.stdout = o₂.stdout) :
    compile_fennel_to_lua o₁ = compile_fennel_to_lua o₂ ∧
      compile_fennel_to_lua o₁ = (utf8Lossy o₁.stdout).map Char.ofNat := by
  unfold compile_fennel_to_lua
  rw [h]
  exact ⟨rfl, rfl⟩

theorem compile_fennel_ignores_exit_status_witness :
    compile_fennel_to_lua ⟨0, [0x61, 0xFF]⟩ = compile_fennel_to_lua ⟨1, [0x61, 0xFF]⟩ ∧
      compile_fennel_to_lua ⟨0, [0x61, 0xFF]⟩ = (utf8Lossy [0x61, 0xFF]).map Char.ofNat :=
  compile_fennel_ignores_exit_status ⟨0, [0x61, 0xFF]⟩ ⟨1, [0x61, 0xFF]⟩ rfl

/-! Manifest-level theorems. -/

theorem parse_project_bad_entry (fs : FS) (t : List (Str × Toml)) (e : Str)
    (hname : tget t (str "name") = none ∨ ∃ s, tget t (str "name") = some (Toml.s s))
    (hout : tget t (str "output") = none ∨ ∃ s, tget t (str "output") = some (Toml.s s))
    (hentry : tget t (str "entry_point") = some (Toml.s e))
    (hmiss : fsRead fs e = none) :
    parse_project fs t =
      .ok ([str "error: a project entry contains an invalid file in the `entry_point`"],
        none) := by
  have hex : fsExists fs e = false := by
    unfold fsExists
    rw [hmiss]
    rfl
  unfold parse_project
  rcases hname with hname | ⟨s1, hname⟩ <;> rcases hout with hout | ⟨s2, hout⟩ <;>
    simp [hname, hout, hentry, Toml.as_str, hex]

/-- C7: for a manifest whose project list holds one project with a
nonexistent entry-point path and one valid project, the run reports the
entry-point error, skips the invalid project, and still produces exactly
the valid project's output file, without aborting. -/
theorem invalid_project_skipped_valid_built
    (preamble : Str) (spawn : Str → ProcessOutput) (fs : FS)
    (parse : Str → Except Unit (List (Str × Toml))) (m : Str)
    (tbl t₁ t₂ : List (Str × Toml)) (e : Str) (p : Project) (out : Str × Str)
    (hm : fsRead fs (str "build.toml") = some m)
    (hp : parse m = .ok tbl)
    (hproj : tget tbl (str "project") = some (Toml.arr [Toml.table t₁, Toml.table t₂]))
    (hname : tget t₁ (str "name") = none ∨ ∃ s, tget t₁ (str "name") = some (Toml.s s))
    (hout : tget t₁ (str "output") = none ∨ ∃ s, tget t₁ (str "output") = some (Toml.s s))
    (hentry : tget t₁ (str "entry_point") = some (Toml.s e))
    (hmiss : fsRead fs e = none)
    (h₂ : parse_project fs t₂ = .ok ([], some p))
    (hbuild : Project.build preamble spawn fs p DEFAULT_REQUIRE_FUNCTION = .ok out) :
    main preamble spawn fs parse =
      .ok ([str "error: a project entry contains an invalid file in the `entry_point`"],
        [out]) := by
  have h₁ := parse_project_bad_entry fs t₁ e hname hout hentry hmiss
  unfold main from_workspace
  simp only [hm, hp, hproj, Toml.as_array, parse_projects, Toml.as_table, h₁, h₂,
    build_all, hbuild, List.append_nil]

/-- C8: a missing manifest file, or a manifest without the top-level
`[[project]]` list, makes the run report an error and produce no output
file, with no project processed. -/
theorem missing_manifest_fatal (preamble : Str) (spawn : Str → ProcessOutput)
    (fs : FS) (parse : Str → Except Unit (List (Str × Toml))) :
    (fsRead fs (str "build.toml") = none →
      main preamble spawn fs parse =
        .ok ([str "error: could not find `build.toml` file"], [])) ∧
      (∀ m tbl, fsRead fs (str "build.toml") = some m → parse m = .ok tbl →
        tget tbl (str "project") = none →
        main preamble spawn fs parse =
          .ok ([str "error: missing [[project]] field in build.toml"], [])) := by
  constructor
  · intro h
    unfold main from_workspace
    rw [h]
  · intro m tbl hm hp hproj
    unfold main from_workspace
    simp only [hm, hp, hproj]

theorem missing_manifest_fatal_witness :
    main (str "P") (fun _ => ⟨0, []⟩) [] (fun _ => .ok []) =
      .ok ([str "error: could not find `build.toml` file"], []) ∧
    main (str "P") (fun _ => ⟨0, []⟩) [(str "build.toml", str "x")] (fun _ => .ok []) =
      .ok ([str "error: missing [[project]] field in build.toml"], []) :=
  ⟨(missing_manifest_fatal (str "P") (fun _ => ⟨0, []⟩) [] (fun _ => .ok [])).1 rfl,
    (missing_manifest_fatal (str "P") (fun _ => ⟨0, []⟩) [(str "build.toml", str "x")]
      (fun _ => .ok [])).2 (str "x") [] rfl rfl rfl⟩

theorem invalid_project_skipped_valid_built_witness :
    main (str "P") (fun _ => ⟨0, []⟩)
        [(str "build.toml", str "manifest"), (str "main.lua", str "print(1)")]
        (fun _ => .ok [(str "project", Toml.arr
          [Toml.table [(str "entry_point", Toml.s (str "missing.lua"))],
           Toml.table [(str "entry_point", Toml.s (str "main.lua")),
                       (str "files", Toml.arr [])]])]) =
      .ok ([str "error: a project entry contains an invalid file in the `entry_point`"],
        [(joinPath (str "build") (str "a.lua"),
          str "P" ++ str "\nlocal files = \x7b" ++ ([] : Str) ++ str "\n\x7d\n" ++
            insert_entry_point (path_without_extension (str "main.lua")))]) :=
  invalid_project_skipped_valid_built (str "P") (fun _ => ⟨0, []⟩)
    [(str "build.toml", str "manifest"), (str "main.lua", str "print(1)")]
    (fun _ => .ok [(str "project", Toml.arr
      [Toml.table [(str "entry_point", Toml.s (str "missing.lua"))],
       Toml.table [(str "entry_point", Toml.s (str "main.lua")),
                   (str "files", Toml.arr [])]])])
    (str "manifest")
    [(str "project", Toml.arr
      [Toml.table [(str "entry_point", Toml.s (str "missing.lua"))],
       Toml.table [(str "entry_point", Toml.s (str "main.lua")),
                   (str "files", Toml.arr [])]])]
    [(str "entry_point", Toml.s (str "missing.lua"))]
    [(str "entry_point", Toml.s (str "main.lua")), (str "files", Toml.arr [])]
    (str "missing.lua")
    ⟨str "a" ++ str ".lua", str "build", str "main.lua", [], LuaVersion.Default⟩
    (joinPath (str "build") (str "a.lua"),
      str "P" ++ str "\nlocal files = \x7b" ++ ([] : Str) ++ str "\n\x7d\n" ++
        insert_entry_point (path_without_extension (str "main.lua")))
    rfl rfl rfl (Or.inl rfl) (Or.inl rfl) rfl rfl rfl rfl

end LuaBundle
